import Mathlib

/-!
Shallow embedding of the `samurai` semantic-version library.

The repository has three source files:

* `src/version.rs` — the final revision: type `Version` with fields
  `major`, `minor`, `patch : u32`, a parser `Version::from`, a
  lexicographic `Ord` implementation, the predicates `is_compatible` and
  `is_featureless`, and the range-pattern evaluator `Version::check`.
* `src/semver.rs` — an identical copy of `version.rs` with the type named
  `SemVer` (same bodies line for line); it is embedded once, as `Version`.
* `src/lib.rs` — an earlier revision whose parser `SemVer::from` applies
  `.take(3)` to the split segments instead of rejecting more than three
  parts; it is embedded separately as `LibSemVer`.

Modelling conventions:

* Rust `&str` values are modelled as `List Char` (Unicode scalar values).
  All slicing in the source happens at character boundaries, so character
  indices coincide with the source's byte indices at every split point.
* `u32` values are modelled as `Nat`.  The only arithmetic the source
  performs on them is `other.major + 1` / `other.minor + 1`; under Rust's
  default (debug) profile an overflowing `+` aborts with a panic, which is
  modelled as `Option.none` (`u32succ`).  Functions that can reach such an
  abort return `Option` of their value: `none` models the panic, `some`
  the returned value.
* `part.parse::<u32>()` is embedded as `parseU32`, following
  `core::num::from_str_radix` for an unsigned type in base 10: an optional
  leading `'+'` (a lone `'-'` or `'+'` is rejected, `'-'` is not consumed
  for unsigned types), at least one digit, every character an ASCII
  decimal digit, and every intermediate accumulator value at most
  `u32::MAX = 4294967295` (the checked multiply/add of the source).
* The source's `String` error values are embedded as inductive error
  types, one constructor per distinct `format!` template, carrying the
  interpolated fragment: `ParseErr.invalidSegment seg` stands for
  "cannot parse `seg` as u32", `ParseErr.tooManyParts` for
  "too many parts", `CheckErr.noVersionFound` for
  "cannot extract the major part" (reported by `check`),
  `CheckErr.unknownOperator tok` for "operator `tok` not found", and
  `CheckErr.parseFailed e` for a parse error propagated unchanged by the
  `?` operator inside `check`.
-/

deriving instance DecidableEq for Except

/-- Unicode code-point ranges (inclusive) of general categories Nd, Nl and
No, generated from the Unicode character database, version 14.0.0.  Rust's
`char::is_numeric` returns true exactly on these categories. -/
def numericRanges : List (Nat × Nat) :=
  [(48, 57), (178, 179), (185, 185), (188, 190), (1632, 1641), (1776, 1785),
  (1984, 1993), (2406, 2415), (2534, 2543), (2548, 2553), (2662, 2671), (2790, 2799),
  (2918, 2927), (2930, 2935), (3046, 3058), (3174, 3183), (3192, 3198), (3302, 3311),
  (3416, 3422), (3430, 3448), (3558, 3567), (3664, 3673), (3792, 3801), (3872, 3891),
  (4160, 4169), (4240, 4249), (4969, 4988), (5870, 5872), (6112, 6121), (6128, 6137),
  (6160, 6169), (6470, 6479), (6608, 6618), (6784, 6793), (6800, 6809), (6992, 7001),
  (7088, 7097), (7232, 7241), (7248, 7257), (8304, 8304), (8308, 8313), (8320, 8329),
  (8528, 8578), (8581, 8585), (9312, 9371), (9450, 9471), (10102, 10131), (11517, 11517),
  (12295, 12295), (12321, 12329), (12344, 12346), (12690, 12693), (12832, 12841), (12872, 12879),
  (12881, 12895), (12928, 12937), (12977, 12991), (42528, 42537), (42726, 42735), (43056, 43061),
  (43216, 43225), (43264, 43273), (43472, 43481), (43504, 43513), (43600, 43609), (44016, 44025),
  (65296, 65305), (65799, 65843), (65856, 65912), (65930, 65931), (66273, 66299), (66336, 66339),
  (66369, 66369), (66378, 66378), (66513, 66517), (66720, 66729), (67672, 67679), (67705, 67711),
  (67751, 67759), (67835, 67839), (67862, 67867), (68028, 68029), (68032, 68047), (68050, 68095),
  (68160, 68168), (68221, 68222), (68253, 68255), (68331, 68335), (68440, 68447), (68472, 68479),
  (68521, 68527), (68858, 68863), (68912, 68921), (69216, 69246), (69405, 69414), (69457, 69460),
  (69573, 69579), (69714, 69743), (69872, 69881), (69942, 69951), (70096, 70105), (70113, 70132),
  (70384, 70393), (70736, 70745), (70864, 70873), (71248, 71257), (71360, 71369), (71472, 71483),
  (71904, 71922), (72016, 72025), (72784, 72812), (73040, 73049), (73120, 73129), (73664, 73684),
  (74752, 74862), (92768, 92777), (92864, 92873), (93008, 93017), (93019, 93025), (93824, 93846),
  (119520, 119539), (119648, 119672), (120782, 120831), (123200, 123209), (123632, 123641), (125127, 125135),
  (125264, 125273), (126065, 126123), (126125, 126127), (126129, 126132), (126209, 126253), (126255, 126269),
  (127232, 127244), (130032, 130041)]

/-- Embedding of Rust `char::is_numeric`: true exactly for characters whose
code point lies in a Unicode N-category range.  On ASCII this coincides
with `'0'..='9'`, but it also accepts e.g. superscripts and vulgar
fractions, which is what `Version::check` actually scans for. -/
def rustIsNumeric (c : Char) : Bool :=
  numericRanges.any (fun r => r.1 ≤ c.toNat && c.toNat ≤ r.2)

/-- Value of an ASCII decimal digit, as used by `char::to_digit(10)` inside
`u32::from_str` (any other character is an invalid digit). -/
def digitVal (c : Char) : Option Nat :=
  if '0' ≤ c ∧ c ≤ '9' then some (c.toNat - 48) else none

/-- Digit-accumulation loop of `core::num::from_str_radix` for `u32`:
starting from `acc`, multiply by ten and add each digit, failing on a
non-digit character or whenever the checked arithmetic would exceed
`u32::MAX`. -/
def parseU32Digits : List Char → Nat → Option Nat
  | [], acc => some acc
  | c :: cs, acc =>
    match digitVal c with
    | none => none
    | some d =>
      if acc * 10 + d ≤ 4294967295 then parseU32Digits cs (acc * 10 + d) else none

/-- Embedding of `str::parse::<u32>()` (`core::num::from_str_radix`, base
10, unsigned): empty input fails; a lone sign fails; a leading `'+'` is
consumed; a leading `'-'` is left in place for an unsigned type and then
fails as an invalid digit; the remaining characters are folded by
`parseU32Digits`. -/
def parseU32 : List Char → Option Nat
  | [] => none
  | c :: cs =>
    if c = '+' then
      match cs with
      | [] => none
      | _ :: _ => parseU32Digits cs 0
    else
      parseU32Digits (c :: cs) 0

/-- Embedding of Rust `str::split('.')` on the character-list model: the
result is always non-empty, adjacent separators and leading/trailing
separators produce empty segments (`"".split('.')` yields `[""]`). -/
def splitDot : List Char → List (List Char)
  | [] => [[]]
  | c :: cs =>
    if c = '.' then [] :: splitDot cs
    else
      match splitDot cs with
      | [] => [[c]]
      | seg :: rest => (c :: seg) :: rest

/-- Error values produced by `Version::from` in `src/version.rs`:
`invalidSegment seg` embeds the string "cannot parse `seg` as u32" and
`tooManyParts` embeds "too many parts". -/
inductive ParseErr where
  | invalidSegment (seg : List Char)
  | tooManyParts
deriving DecidableEq

/-- Error values produced by `Version::check`: `noVersionFound` embeds
"cannot extract the major part", `unknownOperator tok` embeds
"operator `tok` not found", and `parseFailed e` is a `ParseErr` propagated
unchanged (in the source both share the `String` error type). -/
inductive CheckErr where
  | noVersionFound
  | unknownOperator (tok : List Char)
  | parseFailed (e : ParseErr)
deriving DecidableEq

/-- Embedding of the `collect::<Result<Vec<_>>>()` over
`parts.map(|part| part.parse())` in `Version::from`: parse each segment in
order, stopping at the first failure with its `invalidSegment` error. -/
def parseParts : List (List Char) → Except ParseErr (List Nat)
  | [] => .ok []
  | p :: ps =>
    match parseU32 p with
    | none => .error (.invalidSegment p)
    | some n =>
      match parseParts ps with
      | .error e => .error e
      | .ok ns => .ok (n :: ns)

/-- The `Version` struct of `src/version.rs` (equivalently the `SemVer`
struct of `src/semver.rs`, whose implementation is identical line for
line). -/
structure Version where
  major : Nat
  minor : Nat
  patch : Nat
deriving DecidableEq

/-- Embedding of `Version::new`. -/
def Version.new (major minor patch : Nat) : Version :=
  ⟨major, minor, patch⟩

/-- Embedding of `Version::from` (`from` is a reserved word in Lean).  The
source first collects the parsed segments (first parse failure wins), then
rejects more than three parts, then reads `parts.get(0)` with `.expect`
(a potential panic, modelled as `none`) and defaults the missing trailing
parts to `0`. -/
def Version.fromStr (s : List Char) : Option (Except ParseErr Version) :=
  match parseParts (splitDot s) with
  | .error e => some (.error e)
  | .ok parts =>
    if parts.length > 3 then some (.error .tooManyParts)
    else
      match parts with
      | [] => none
      | major :: rest => some (.ok ⟨major, rest.getD 0 0, rest.getD 1 0⟩)

/-- Embedding of the `Ord for Version` implementation: nested comparisons
returning `Greater` or `Equal` early and falling through to `Less`. -/
def Version.cmp (a b : Version) : Ordering :=
  if a.major > b.major then .gt
  else if a.major = b.major then
    if a.minor > b.minor then .gt
    else if a.minor = b.minor then
      if a.patch > b.patch then .gt
      else if a.patch = b.patch then .eq
      else .lt
    else .lt
  else .lt

/-- Embedding of the `PartialEq for Version` implementation: field-wise
equality. -/
def Version.eqb (a b : Version) : Bool :=
  a.major == b.major && a.minor == b.minor && a.patch == b.patch

/-- Rust's derived `lt` (`partial_cmp` matches `Some(Less)`);
`partial_cmp` is `Some(cmp)` in the source. -/
def Version.ltb (a b : Version) : Bool :=
  match Version.cmp a b with
  | .lt => true
  | _ => false

/-- Rust's derived `le` (`partial_cmp` matches `Some(Less | Equal)`). -/
def Version.leb (a b : Version) : Bool :=
  match Version.cmp a b with
  | .lt => true
  | .eq => true
  | _ => false

/-- Rust's derived `gt` (`partial_cmp` matches `Some(Greater)`). -/
def Version.gtb (a b : Version) : Bool :=
  match Version.cmp a b with
  | .gt => true
  | _ => false

/-- Rust's derived `ge` (`partial_cmp` matches `Some(Greater | Equal)`). -/
def Version.geb (a b : Version) : Bool :=
  match Version.cmp a b with
  | .gt => true
  | .eq => true
  | _ => false

/-- Successor on `u32` under Rust's default (debug) overflow checking:
`n + 1` panics — modelled as `none` — exactly when `n = u32::MAX`. -/
def u32succ (n : Nat) : Option Nat :=
  if n < 4294967295 then some (n + 1) else none

/-- Embedding of `Version::is_featureless`:
`self >= &other && self < &Self::new(other.major, other.minor + 1, 0)`.
The `&&` short-circuits, so `other.minor + 1` is evaluated (and can
overflow) only when `self >= other`. -/
def Version.is_featureless (v w : Version) : Option Bool :=
  if Version.geb v w then
    (u32succ w.minor).map (fun m => Version.ltb v (Version.new w.major m 0))
  else some false

/-- Embedding of `Version::is_compatible`: delegate to `is_featureless`
when `self.major == 0`, otherwise
`self >= &other && self < &Self::new(other.major + 1, 0, 0)` with the same
short-circuit behaviour. -/
def Version.is_compatible (v w : Version) : Option Bool :=
  if v.major = 0 then Version.is_featureless v w
  else if Version.geb v w then
    (u32succ w.major).map (fun m => Version.ltb v (Version.new m 0 0))
  else some false

/-- Embedding of `pattern.find(|ch: char| ch.is_numeric())`, returning the
character index of the first numeric character. -/
def findNumeric : List Char → Option Nat
  | [] => none
  | c :: cs =>
    if rustIsNumeric c then some 0
    else (findNumeric cs).map (· + 1)

/-- Embedding of `Version::check`: split the pattern at the first numeric
character (failing with `noVersionFound` when there is none), parse the
remainder as a version (propagating its error), then dispatch on the
operator token by exact string equality in the source's `match` order;
the `'^'` and `'~'` arms call the predicates, whose potential overflow
panic (`none`) propagates. -/
def Version.check (v : Version) (pat : List Char) : Option (Except CheckErr Bool) :=
  match findNumeric pat with
  | none => some (.error .noVersionFound)
  | some i =>
    let operator := pat.take i
    match Version.fromStr (pat.drop i) with
    | none => none
    | some (.error e) => some (.error (.parseFailed e))
    | some (.ok other) =>
      if operator = ("=").toList then some (.ok (Version.eqb v other))
      else if operator = ("<").toList then some (.ok (Version.ltb v other))
      else if operator = (">").toList then some (.ok (Version.gtb v other))
      else if operator = ("<=").toList then some (.ok (Version.leb v other))
      else if operator = (">=").toList then some (.ok (Version.geb v other))
      else if operator = ("^").toList then (Version.is_compatible v other).map Except.ok
      else if operator = ("~").toList then (Version.is_featureless v other).map Except.ok
      else some (.error (.unknownOperator operator))

/-- The `SemVer` struct of the earlier revision in `src/lib.rs`. -/
structure LibSemVer where
  major : Nat
  minor : Nat
  patch : Nat
deriving DecidableEq

/-- Error values produced by `SemVer::from` in `src/lib.rs`:
`invalidSegment seg` embeds "cannot parse `seg` as u32" and `majorMissing`
embeds "cannot extract the major part" (an `ok_or` value error there, not
a panic). -/
inductive LibSemVerErr where
  | invalidSegment (seg : List Char)
  | majorMissing
deriving DecidableEq

/-- Segment collection of `SemVer::from` in `src/lib.rs` (same loop as
`parseParts`, with that file's error type). -/
def libCollect : List (List Char) → Except LibSemVerErr (List Nat)
  | [] => .ok []
  | p :: ps =>
    match parseU32 p with
    | none => .error (.invalidSegment p)
    | some n =>
      match libCollect ps with
      | .error e => .error e
      | .ok ns => .ok (n :: ns)

/-- Embedding of `SemVer::from` in `src/lib.rs`: note the `.take(3)` on
the split iterator — segments beyond the third are never examined — and
the `ok_or` on the major part instead of version.rs's `.expect`. -/
def LibSemVer.fromStr (s : List Char) : Except LibSemVerErr LibSemVer :=
  match libCollect ((splitDot s).take 3) with
  | .error e => .error e
  | .ok parts =>
    match parts with
    | [] => .error .majorMissing
    | major :: rest => .ok ⟨major, rest.getD 0 0, rest.getD 1 0⟩

/-- Specification-side strict lexicographic order on version triples:
major decides first, then minor, then patch. -/
def lexLt (a b : Version) : Prop :=
  a.major < b.major ∨
    (a.major = b.major ∧
      (a.minor < b.minor ∨ (a.minor = b.minor ∧ a.patch < b.patch)))

/-- Specification-side reflexive closure of `lexLt`. -/
def lexLe (a b : Version) : Prop :=
  lexLt a b ∨ a = b

instance instDecidableLexLt (a b : Version) : Decidable (lexLt a b) := by
  unfold lexLt
  infer_instance

instance instDecidableLexLe (a b : Version) : Decidable (lexLe a b) := by
  unfold lexLe
  infer_instance

/-- Specification-side three-way lexicographic comparison of the triples
`(major, minor, patch)`, written with `Ordering.then`: compare majors, on
a tie compare minors, on a tie compare patches. -/
def lexCompare (a b : Version) : Ordering :=
  (compare a.major b.major).then
    ((compare a.minor b.minor).then (compare a.patch b.patch))

/-- Modelled from the spec: the repository has no rendering function (no
`Display` impl in `src/`), so the canonical rendering named `format` by
the round-trip property in the spec is defined here from the spec's words:
the base-10 decimal digits of each field, fields joined by `'.'`.
`decDigits` is standard most-significant-first decimal rendering. -/
def decDigitsFuel : Nat → Nat → List Char
  | 0, n => [Nat.digitChar n]
  | fuel + 1, n =>
    if n < 10 then [Nat.digitChar n]
    else decDigitsFuel fuel (n / 10) ++ [Nat.digitChar (n % 10)]

/-- Modelled from the spec (continued): most-significant-first decimal
rendering of a natural number; the fuel argument of `decDigitsFuel` only
makes the recursion structural and never runs out, since a number needs
no more than `n` divisions by ten. -/
def decDigits (n : Nat) : List Char :=
  decDigitsFuel n n

/-- Modelled from the spec: `format(M, m, p) = "M.m.p"`, the decimal
strings of the three fields joined with `'.'` separators. -/
def formatVersion (M m p : Nat) : List Char :=
  decDigits M ++ '.' :: (decDigits m ++ '.' :: decDigits p)

/-- Helper for closed counterexample statements: true when the string
contains no ASCII decimal digit. -/
def noAsciiDigit (s : List Char) : Bool :=
  s.all (fun c => !c.isDigit)

example : Version.fromStr (("1.5.7").toList) = some (.ok (Version.new 1 5 7)) := by decide
example : Version.fromStr (("10").toList) = some (.ok (Version.new 10 0 0)) := by decide
example : Version.fromStr (("6.9").toList) = some (.ok (Version.new 6 9 0)) := by decide
example : Version.fromStr (("1.5.7.9").toList) = some (.error .tooManyParts) := by decide
example : Version.fromStr (("").toList) = some (.error (.invalidSegment [])) := by decide
example : Version.fromStr (("+1.2.3").toList) = some (.ok (Version.new 1 2 3)) := by decide
example : Version.fromStr (("-1.2.3").toList) = some (.error (.invalidSegment (("-1").toList))) := by decide
example : Version.fromStr (("4294967295").toList) = some (.ok (Version.new 4294967295 0 0)) := by decide
example : Version.fromStr (("4294967296").toList) = some (.error (.invalidSegment (("4294967296").toList))) := by decide
example : Version.check (Version.new 7 8 9) (("<8.5.8").toList) = some (.ok true) := by decide
example : Version.check (Version.new 8 10 5) (("^8.9.1").toList) = some (.ok true) := by decide
example : Version.check (Version.new 30 11 21) (("~30.11.20").toList) = some (.ok true) := by decide
example : Version.check (Version.new 1 0 69) (("seeya5.8.10").toList)
    = some (.error (.unknownOperator (("seeya").toList))) := by decide
example : Version.check (Version.new 5 2 8) ((">=5.1.9").toList) = some (.ok true) := by decide
example : Version.check (Version.new 1 0 0) (("=²").toList)
    = some (.error (.parseFailed (.invalidSegment (("²").toList)))) := by decide
example : Version.is_compatible (Version.new 4294967295 0 0) (Version.new 4294967295 0 0) = none := by decide
example : Version.is_compatible (Version.new 0 10 6) (Version.new 0 10 5) = some true := by decide
example : Version.is_compatible (Version.new 0 10 5) (Version.new 0 9 20) = some false := by decide
example : LibSemVer.fromStr (("1.5.7.9").toList) = .ok (LibSemVer.mk 1 5 7) := by decide
example : LibSemVer.fromStr (("1.5.7.garbage").toList) = .ok (LibSemVer.mk 1 5 7) := by decide
example : formatVersion 10 0 304 = ("10.0.304").toList := by decide

/-! ### Properties of the ordering -/

theorem vcmp_lt_iff (a b : Version) : Version.cmp a b = .lt ↔ lexLt a b := by
  obtain ⟨a1, a2, a3⟩ := a
  obtain ⟨b1, b2, b3⟩ := b
  simp only [Version.cmp, lexLt]
  split_ifs <;> simp_all <;> omega

theorem vcmp_eq_iff (a b : Version) : Version.cmp a b = .eq ↔ a = b := by
  obtain ⟨a1, a2, a3⟩ := a
  obtain ⟨b1, b2, b3⟩ := b
  simp only [Version.cmp, Version.mk.injEq]
  split_ifs <;> simp_all <;> omega

theorem vcmp_gt_iff (a b : Version) : Version.cmp a b = .gt ↔ lexLt b a := by
  obtain ⟨a1, a2, a3⟩ := a
  obtain ⟨b1, b2, b3⟩ := b
  simp only [Version.cmp, lexLt]
  split_ifs <;> simp_all <;> omega

theorem ltb_iff (a b : Version) : Version.ltb a b = true ↔ lexLt a b := by
  unfold Version.ltb
  rcases hc : Version.cmp a b with _ | _ | _
  · simpa using (vcmp_lt_iff a b).mp hc
  · have h := (vcmp_eq_iff a b).mp hc
    subst h
    simp only [Bool.false_eq_true, false_iff]
    intro hcontra
    have := (vcmp_lt_iff a a).mpr hcontra
    rw [hc] at this
    exact Ordering.noConfusion this
  · have h := (vcmp_gt_iff a b).mp hc
    simp only [Bool.false_eq_true, false_iff]
    intro hcontra
    have := (vcmp_lt_iff a b).mpr hcontra
    rw [hc] at this
    exact Ordering.noConfusion this

theorem gtb_iff (a b : Version) : Version.gtb a b = true ↔ lexLt b a := by
  unfold Version.gtb
  rcases hc : Version.cmp a b with _ | _ | _
  · have h := (vcmp_lt_iff a b).mp hc
    simp only [Bool.false_eq_true, false_iff]
    intro hcontra
    have := (vcmp_gt_iff a b).mpr hcontra
    rw [hc] at this
    exact Ordering.noConfusion this
  · have h := (vcmp_eq_iff a b).mp hc
    subst h
    simp only [Bool.false_eq_true, false_iff]
    intro hcontra
    have := (vcmp_gt_iff a a).mpr hcontra
    rw [hc] at this
    exact Ordering.noConfusion this
  · simpa using (vcmp_gt_iff a b).mp hc

theorem eqb_iff (a b : Version) : Version.eqb a b = true ↔ a = b := by
  obtain ⟨a1, a2, a3⟩ := a
  obtain ⟨b1, b2, b3⟩ := b
  simp [Version.eqb, Version.mk.injEq, and_assoc]

theorem geb_iff (a b : Version) : Version.geb a b = true ↔ lexLe b a := by
  unfold Version.geb lexLe
  rcases hc : Version.cmp a b with _ | _ | _
  · have h := (vcmp_lt_iff a b).mp hc
    simp only [Bool.false_eq_true, false_iff]
    rintro (hgt | heq)
    · have := (vcmp_gt_iff a b).mpr hgt
      rw [hc] at this
      exact Ordering.noConfusion this
    · subst heq
      have := (vcmp_eq_iff b b).mpr rfl
      rw [hc] at this
      exact Ordering.noConfusion this
  · have h := (vcmp_eq_iff a b).mp hc
    subst h
    simp
  · have h := (vcmp_gt_iff a b).mp hc
    simp [h]

theorem leb_iff (a b : Version) : Version.leb a b = true ↔ lexLe a b := by
  unfold Version.leb lexLe
  rcases hc : Version.cmp a b with _ | _ | _
  · have h := (vcmp_lt_iff a b).mp hc
    simp [h]
  · have h := (vcmp_eq_iff a b).mp hc
    subst h
    simp
  · have h := (vcmp_gt_iff a b).mp hc
    simp only [Bool.false_eq_true, false_iff]
    rintro (hlt | heq)
    · have := (vcmp_lt_iff a b).mpr hlt
      rw [hc] at this
      exact Ordering.noConfusion this
    · subst heq
      have := (vcmp_eq_iff a a).mpr rfl
      rw [hc] at this
      exact Ordering.noConfusion this

theorem lexLt_trans_nat {a b c : Version} (h1 : lexLt a b) (h2 : lexLt b c) : lexLt a c := by
  obtain ⟨a1, a2, a3⟩ := a
  obtain ⟨b1, b2, b3⟩ := b
  obtain ⟨c1, c2, c3⟩ := c
  simp only [lexLt] at *
  omega

theorem cmp_eq_lexCompare (a b : Version) : Version.cmp a b = lexCompare a b := by
  obtain ⟨a1, a2, a3⟩ := a
  obtain ⟨b1, b2, b3⟩ := b
  simp only [Version.cmp, lexCompare]
  rcases Nat.lt_trichotomy a1 b1 with h1 | h1 | h1
  · rw [compare_lt_iff_lt.mpr h1]
    split_ifs <;> simp_all [Ordering.then] <;> omega
  · subst h1
    rw [compare_eq_iff_eq.mpr rfl]
    rcases Nat.lt_trichotomy a2 b2 with h2 | h2 | h2
    · rw [compare_lt_iff_lt.mpr h2]
      split_ifs <;> simp_all [Ordering.then] <;> omega
    · subst h2
      rw [compare_eq_iff_eq.mpr rfl]
      rcases Nat.lt_trichotomy a3 b3 with h3 | h3 | h3
      · rw [compare_lt_iff_lt.mpr h3]
        split_ifs <;> simp_all [Ordering.then] <;> omega
      · subst h3
        rw [compare_eq_iff_eq.mpr rfl]
        split_ifs <;> simp_all [Ordering.then]
      · rw [compare_gt_iff_gt.mpr h3]
        split_ifs <;> simp_all [Ordering.then] <;> omega
    · rw [compare_gt_iff_gt.mpr h2]
      split_ifs <;> simp_all [Ordering.then] <;> omega
  · rw [compare_gt_iff_gt.mpr h1]
    split_ifs <;> simp_all [Ordering.then] <;> omega

/-- Claim C1: `Version::cmp` is the lexicographic three-way comparison of
the triples `(major, minor, patch)` — major decides first, then minor,
then patch — its result is `Equal` exactly when all three pairs of fields
are equal, for every pair of versions exactly one of `a < b`, `a == b`,
`a > b` holds (with the relational operators and `==` as the source
derives them from `cmp` and `PartialEq`), and the strict order is
transitive over any three versions. -/
theorem C1_cmp_lexicographic :
    (∀ a b : Version, Version.cmp a b = lexCompare a b) ∧
    (∀ a b : Version,
      (Version.cmp a b = .eq ↔
        (a.major = b.major ∧ a.minor = b.minor ∧ a.patch = b.patch))) ∧
    (∀ a b : Version,
      (Version.ltb a b = true ∧ Version.eqb a b = false ∧ Version.gtb a b = false) ∨
      (Version.ltb a b = false ∧ Version.eqb a b = true ∧ Version.gtb a b = false) ∨
      (Version.ltb a b = false ∧ Version.eqb a b = false ∧ Version.gtb a b = true)) ∧
    (∀ a b c : Version,
      Version.ltb a b = true → Version.ltb b c = true → Version.ltb a c = true) := by
  refine ⟨cmp_eq_lexCompare, ?_, ?_, ?_⟩
  · intro a b
    rw [vcmp_eq_iff]
    obtain ⟨a1, a2, a3⟩ := a
    obtain ⟨b1, b2, b3⟩ := b
    simp [Version.mk.injEq]
  · intro a b
    unfold Version.ltb Version.gtb
    rcases hc : Version.cmp a b with _ | _ | _
    · left
      refine ⟨rfl, ?_, rfl⟩
      rw [Bool.eq_false_iff]
      intro heq
      have h := (eqb_iff a b).mp heq
      subst h
      have := (vcmp_eq_iff a a).mpr rfl
      rw [hc] at this
      exact Ordering.noConfusion this
    · right; left
      refine ⟨rfl, ?_, rfl⟩
      exact (eqb_iff a b).mpr ((vcmp_eq_iff a b).mp hc)
    · right; right
      refine ⟨rfl, ?_, rfl⟩
      rw [Bool.eq_false_iff]
      intro heq
      have h := (eqb_iff a b).mp heq
      subst h
      have := (vcmp_eq_iff a a).mpr rfl
      rw [hc] at this
      exact Ordering.noConfusion this
  · intro a b c h1 h2
    exact (ltb_iff a c).mpr (lexLt_trans_nat ((ltb_iff a b).mp h1) ((ltb_iff b c).mp h2))

/-- Witness for C1: the transitivity component applied at concrete
versions `(1,2,3) < (1,4,0) < (2,0,0)`. -/
theorem C1_witness :
    Version.ltb (Version.new 1 2 3) (Version.new 2 0 0) = true :=
  C1_cmp_lexicographic.2.2.2 (Version.new 1 2 3) (Version.new 1 4 0) (Version.new 2 0 0)
    (by decide) (by decide)

theorem lexLt_irrefl (a : Version) : ¬ lexLt a a := by
  obtain ⟨a1, a2, a3⟩ := a
  simp [lexLt]

theorem not_lexLe_of_lexLt {a b : Version} (h : lexLt a b) : ¬ lexLe b a := by
  rintro (hlt | heq)
  · exact lexLt_irrefl a (lexLt_trans_nat h hlt)
  · subst heq
    exact lexLt_irrefl _ h

theorem ltb_eq_decide (a b : Version) : Version.ltb a b = decide (lexLt a b) := by
  by_cases h : lexLt a b
  · simp [h, (ltb_iff a b).mpr h]
  · rcases hb : Version.ltb a b
    · simp [h]
    · exact absurd ((ltb_iff a b).mp hb) h

theorem geb_eq_decide (a b : Version) : Version.geb a b = decide (lexLe b a) := by
  by_cases h : lexLe b a
  · simp [h, (geb_iff a b).mpr h]
  · rcases hb : Version.geb a b
    · simp [h]
    · exact absurd ((geb_iff a b).mp hb) h

/-! ### Properties of the compatibility predicates -/

/-- Claim C5 (amended): when `self.major = 0`, `is_compatible` returns
exactly the value of `is_featureless` (panic included); otherwise,
provided `other.major < u32::MAX`, it returns the boolean of
`self >= other ∧ self < (other.major + 1, 0, 0)` in the lexicographic
order.  (At `other.major = u32::MAX` with `self >= other` the addition
`other.major + 1` overflows instead of producing that boolean; see the
counterexample.) -/
theorem C5_is_compatible_spec :
    ∀ v w : Version,
      (v.major = 0 → Version.is_compatible v w = Version.is_featureless v w) ∧
      (v.major ≠ 0 → w.major < 4294967295 →
        Version.is_compatible v w =
          some (decide (lexLe w v ∧ lexLt v (Version.new (w.major + 1) 0 0)))) := by
  intro v w
  constructor
  · intro h
    simp [Version.is_compatible, h]
  · intro h hw
    simp only [Version.is_compatible, if_neg h]
    rcases hg : Version.geb v w
    · have hnle : ¬ lexLe w v := fun hc => by simp [(geb_iff v w).mpr hc] at hg
      simp [hnle]
    · have hle : lexLe w v := (geb_iff v w).mp hg
      simp [u32succ, hw, hle, ltb_eq_decide]

/-- Counterexample for C5 as stated: at `self = other = (u32::MAX, 0, 0)`
the claim's condition `self >= other ∧ self < (other.major + 1, 0, 0)`
holds, so the claim demands `is_compatible = true`; the code instead
evaluates `other.major + 1` on `u32::MAX`, which aborts with an overflow
panic (modelled as `none`) under Rust's default checked arithmetic (and
wraps to a spurious `false` with wrapping arithmetic). -/
theorem C5_counterexample :
    Version.is_compatible (Version.new 4294967295 0 0) (Version.new 4294967295 0 0) = none ∧
    lexLe (Version.new 4294967295 0 0) (Version.new 4294967295 0 0) ∧
    lexLt (Version.new 4294967295 0 0) (Version.new (4294967295 + 1) 0 0) := by
  refine ⟨by decide, by decide, by decide⟩

/-- Witness for C5: the zero-major branch at `(0,1,0)` versus `(0,1,0)`,
and the main branch at `(1,2,3)` versus `(1,0,0)`. -/
theorem C5_witness :
    Version.is_compatible (Version.new 0 1 0) (Version.new 0 1 0)
        = Version.is_featureless (Version.new 0 1 0) (Version.new 0 1 0) ∧
    Version.is_compatible (Version.new 1 2 3) (Version.new 1 0 0)
        = some (decide (lexLe (Version.new 1 0 0) (Version.new 1 2 3) ∧
            lexLt (Version.new 1 2 3) (Version.new (1 + 1) 0 0))) :=
  ⟨(C5_is_compatible_spec (Version.new 0 1 0) (Version.new 0 1 0)).1 rfl,
   (C5_is_compatible_spec (Version.new 1 2 3) (Version.new 1 0 0)).2 (by decide) (by decide)⟩

/-- Claim C6 (amended): provided `other.minor < u32::MAX`,
`is_featureless(self, other)` returns the boolean of
`self >= other ∧ self < (other.major, other.minor + 1, 0)`; and whenever
`self < other`, both `is_featureless` and `is_compatible` return `false`
(this consequence holds unconditionally, because `&&` short-circuits
before the overflowing addition).  At `other.minor = u32::MAX` with
`self >= other` the addition overflows; see the counterexample. -/
theorem C6_is_featureless_spec :
    ∀ v w : Version,
      (w.minor < 4294967295 →
        Version.is_featureless v w =
          some (decide (lexLe w v ∧ lexLt v (Version.new w.major (w.minor + 1) 0)))) ∧
      (lexLt v w →
        Version.is_featureless v w = some false ∧
        Version.is_compatible v w = some false) := by
  intro v w
  have hfl : ∀ hvw : lexLt v w, Version.is_featureless v w = some false := by
    intro hvw
    have hg : Version.geb v w = false := by
      rcases hb : Version.geb v w
      · rfl
      · exact absurd ((geb_iff v w).mp hb) (not_lexLe_of_lexLt hvw)
    simp [Version.is_featureless, hg]
  constructor
  · intro hw
    simp only [Version.is_featureless]
    rcases hg : Version.geb v w
    · have hnle : ¬ lexLe w v := fun hc => by simp [(geb_iff v w).mpr hc] at hg
      simp [hnle]
    · have hle : lexLe w v := (geb_iff v w).mp hg
      simp [u32succ, hw, hle, ltb_eq_decide]
  · intro hvw
    refine ⟨hfl hvw, ?_⟩
    by_cases h0 : v.major = 0
    · simp [Version.is_compatible, h0, hfl hvw]
    · have hg : Version.geb v w = false := by
        rcases hb : Version.geb v w
        · rfl
        · exact absurd ((geb_iff v w).mp hb) (not_lexLe_of_lexLt hvw)
      simp [Version.is_compatible, h0, hg]

/-- Counterexample for C6 as stated: at `self = other = (0, u32::MAX, 0)`
the claim's condition `self >= other ∧ self < (other.major,
other.minor + 1, 0)` holds, so the claim demands `is_featureless = true`;
the code instead evaluates `other.minor + 1` on `u32::MAX`, which aborts
with an overflow panic (modelled as `none`) under Rust's default checked
arithmetic. -/
theorem C6_counterexample :
    Version.is_featureless (Version.new 0 4294967295 0) (Version.new 0 4294967295 0) = none ∧
    lexLe (Version.new 0 4294967295 0) (Version.new 0 4294967295 0) ∧
    lexLt (Version.new 0 4294967295 0) (Version.new 0 (4294967295 + 1) 0) := by
  refine ⟨by decide, by decide, by decide⟩

/-- Witness for C6: the main branch at `(30,11,21)` versus `(30,11,20)`
and the `self < other` consequence at `(1,0,0)` versus `(2,0,0)`. -/
theorem C6_witness :
    Version.is_featureless (Version.new 30 11 21) (Version.new 30 11 20)
        = some (decide (lexLe (Version.new 30 11 20) (Version.new 30 11 21) ∧
            lexLt (Version.new 30 11 21) (Version.new 30 (11 + 1) 0))) ∧
    Version.is_featureless (Version.new 1 0 0) (Version.new 2 0 0) = some false ∧
    Version.is_compatible (Version.new 1 0 0) (Version.new 2 0 0) = some false :=
  ⟨(C6_is_featureless_spec (Version.new 30 11 21) (Version.new 30 11 20)).1 (by decide),
   (C6_is_featureless_spec (Version.new 1 0 0) (Version.new 2 0 0)).2 (by decide)⟩

/-! ### Properties of the parser -/

theorem splitDot_ne_nil (s : List Char) : splitDot s ≠ [] := by
  cases s with
  | nil => simp [splitDot]
  | cons c cs =>
    simp only [splitDot]
    split_ifs
    · simp
    · rcases h : splitDot cs with _ | ⟨seg, rest⟩ <;> simp

theorem parseParts_length {l : List (List Char)} {ns : List Nat}
    (h : parseParts l = .ok ns) : ns.length = l.length := by
  induction l generalizing ns with
  | nil =>
    simp only [parseParts, Except.ok.injEq] at h
    subst h
    rfl
  | cons p ps ih =>
    simp only [parseParts] at h
    rcases hp : parseU32 p with _ | n
    · rw [hp] at h
      simp at h
    · rw [hp] at h
      rcases hps : parseParts ps with e | ms
      · rw [hps] at h
        simp at h
      · rw [hps] at h
        simp only [Except.ok.injEq] at h
        subst h
        simp [ih hps]

theorem fromStr_ne_none (s : List Char) : Version.fromStr s ≠ none := by
  rcases hp : parseParts (splitDot s) with e | parts
  · simp [Version.fromStr, hp]
  · have hlen := parseParts_length hp
    simp only [Version.fromStr, hp]
    split_ifs
    · simp
    · rcases parts with _ | ⟨a, rest⟩
      · exact absurd (List.length_eq_zero.mp hlen.symm) (splitDot_ne_nil s)
      · simp

theorem parseParts_ok {l : List (List Char)} (h : ∀ p ∈ l, (parseU32 p).isSome) :
    ∃ ns, parseParts l = .ok ns ∧ ns.length = l.length ∧
      ∀ i, i < l.length → parseU32 (l.getD i []) = some (ns.getD i 0) := by
  induction l with
  | nil => exact ⟨[], rfl, rfl, by simp⟩
  | cons p ps ih =>
    have hp := h p (List.mem_cons_self p ps)
    rcases hn : parseU32 p with _ | n
    · rw [hn] at hp
      simp at hp
    · obtain ⟨ns, h1, h2, h3⟩ := ih (fun q hq => h q (List.mem_cons_of_mem _ hq))
      refine ⟨n :: ns, ?_, by simp [h2], ?_⟩
      · simp [parseParts, hn, h1]
      · intro i hi
        cases i with
        | zero => simpa using hn
        | succ j => simpa using h3 j (by simpa using hi)

theorem parseParts_err {l : List (List Char)} (h : ∃ p ∈ l, parseU32 p = none) :
    ∃ i, i < l.length ∧ parseU32 (l.getD i []) = none ∧
      (∀ j, j < i → (parseU32 (l.getD j [])).isSome) ∧
      parseParts l = .error (.invalidSegment (l.getD i [])) := by
  induction l with
  | nil => simp at h
  | cons p ps ih =>
    rcases hn : parseU32 p with _ | n
    · exact ⟨0, by simp, by simpa using hn, by simp, by simp [parseParts, hn]⟩
    · have hps : ∃ q ∈ ps, parseU32 q = none := by
        rcases h with ⟨q, hq, hqn⟩
        rcases List.mem_cons.mp hq with rfl | hq'
        · rw [hn] at hqn
          exact absurd hqn (by simp)
        · exact ⟨q, hq', hqn⟩
      obtain ⟨i, h1, h2, h3, h4⟩ := ih hps
      refine ⟨i + 1, by simpa using h1, by simpa using h2, ?_, by simp [parseParts, hn, h4]⟩
      intro j hj
      cases j with
      | zero => simp [hn]
      | succ k => simpa using h3 k (by omega)

/-- Claim C7 (amended): `Version::from` is total — in particular the
`.expect` that extracts the major part is unreachable, since splitting
always yields at least one segment and segment parsing preserves the
count.  The compatibility predicates, however, are *not* total on all
`u32` versions: `is_featureless` aborts (overflow panic under Rust's
default checked arithmetic; a wrap under release profile) exactly when
`self >= other` and `other.minor = u32::MAX`, `is_compatible` exactly
when `self >= other` and the incremented field of `other` is `u32::MAX`,
and `check` aborts exactly when its `^`/`~` arm reaches such a pair, so
`check` is not total on all input strings either.  The hypotheses
`≤ 4294967295` restrict the `Nat` fields of the model to the `u32`
range. -/
theorem C7_totality :
    (∀ s : List Char, Version.fromStr s ≠ none) ∧
    (∀ v w : Version, w.minor ≤ 4294967295 →
      (Version.is_featureless v w = none ↔
        (Version.geb v w = true ∧ w.minor = 4294967295))) ∧
    (∀ v w : Version, w.major ≤ 4294967295 → w.minor ≤ 4294967295 →
      (Version.is_compatible v w = none ↔
        (Version.geb v w = true ∧
          ((v.major = 0 ∧ w.minor = 4294967295) ∨
           (v.major ≠ 0 ∧ w.major = 4294967295))))) ∧
    (∀ (v : Version) (p : List Char), Version.check v p = none →
      ∃ i w, findNumeric p = some i ∧
        Version.fromStr (p.drop i) = some (.ok w) ∧
        ((p.take i = ("^").toList ∧ Version.is_compatible v w = none) ∨
         (p.take i = ("~").toList ∧ Version.is_featureless v w = none))) := by
  have hfl : ∀ v w : Version, w.minor ≤ 4294967295 →
      (Version.is_featureless v w = none ↔
        (Version.geb v w = true ∧ w.minor = 4294967295)) := by
    intro v w hwm
    simp only [Version.is_featureless]
    rcases hg : Version.geb v w
    · simp
    · simp only [if_true, true_and]
      by_cases hw : w.minor < 4294967295
      · simp [u32succ, hw]
        omega
      · simp [u32succ, hw]
        omega
  refine ⟨fromStr_ne_none, hfl, ?_, ?_⟩
  · intro v w hwM hwm
    by_cases h0 : v.major = 0
    · have hdeleg : Version.is_compatible v w = Version.is_featureless v w := by
        simp [Version.is_compatible, h0]
      rw [hdeleg, hfl v w hwm]
      constructor
      · rintro ⟨hg, hm⟩
        exact ⟨hg, Or.inl ⟨h0, hm⟩⟩
      · rintro ⟨hg, ⟨hz, hm⟩ | ⟨hnz, hM⟩⟩
        · exact ⟨hg, hm⟩
        · exact absurd h0 hnz
    · simp only [Version.is_compatible, if_neg h0]
      rcases hg : Version.geb v w
      · simp [h0]
      · simp only [if_true, true_and]
        by_cases hw : w.major < 4294967295
        · simp [u32succ, hw, h0]
          omega
        · simp [u32succ, hw, h0]
          omega
  · intro v p h
    rcases hf : findNumeric p with _ | i
    · simp [Version.check, hf] at h
    · rcases hfs : Version.fromStr (p.drop i) with _ | x
      · exact absurd hfs (fromStr_ne_none (p.drop i))
      · rcases x with e | w
        · simp [Version.check, hf, hfs] at h
        · simp only [Version.check, hf, hfs] at h
          by_cases h1 : p.take i = ("=").toList
          · rw [if_pos h1] at h
            simp at h
          rw [if_neg h1] at h
          by_cases h2 : p.take i = ("<").toList
          · rw [if_pos h2] at h
            simp at h
          rw [if_neg h2] at h
          by_cases h3 : p.take i = (">").toList
          · rw [if_pos h3] at h
            simp at h
          rw [if_neg h3] at h
          by_cases h4 : p.take i = ("<=").toList
          · rw [if_pos h4] at h
            simp at h
          rw [if_neg h4] at h
          by_cases h5 : p.take i = (">=").toList
          · rw [if_pos h5] at h
            simp at h
          rw [if_neg h5] at h
          by_cases h6 : p.take i = ("^").toList
          · rw [if_pos h6] at h
            rcases hc : Version.is_compatible v w with _ | b
            · exact ⟨i, w, rfl, hfs, Or.inl ⟨h6, hc⟩⟩
            · rw [hc] at h
              simp at h
          rw [if_neg h6] at h
          by_cases h7 : p.take i = ("~").toList
          · rw [if_pos h7] at h
            rcases hc : Version.is_featureless v w with _ | b
            · exact ⟨i, w, rfl, hfs, Or.inr ⟨h7, hc⟩⟩
            · rw [hc] at h
              simp at h
          rw [if_neg h7] at h
          simp at h

/-- Counterexample for C7 as stated: the public operation `check`, called
on the value `(u32::MAX, 0, 0)` and the well-formed pattern
`"^4294967295"`, reaches `other.major + 1` with `other.major = u32::MAX`
and aborts with an overflow panic (modelled as `none`) under Rust's
default checked arithmetic, instead of returning a value or a value
error. -/
theorem C7_counterexample :
    Version.check (Version.new 4294967295 0 0) (("^4294967295").toList) = none := by
  decide

/-- Witness for C7: the abort-characterization component applied at the
concrete input of the counterexample. -/
theorem C7_witness :
    ∃ i w, findNumeric (("^4294967295").toList) = some i ∧
      Version.fromStr ((("^4294967295").toList).drop i) = some (.ok w) ∧
      (((("^4294967295").toList).take i = ("^").toList ∧
          Version.is_compatible (Version.new 4294967295 0 0) w = none) ∨
       ((("^4294967295").toList).take i = ("~").toList ∧
          Version.is_featureless (Version.new 4294967295 0 0) w = none)) :=
  C7_totality.2.2.2 (Version.new 4294967295 0 0) (("^4294967295").toList) (by decide)

/-- Claim C3: an input of one to three dot-separated segments, each
parsing as a `u32`, parses successfully; the segments are assigned to
major, minor, patch in order and missing trailing segments default to 0;
in particular `"10"`, `"6.9"` and `"1.8.9"` parse to `(10,0,0)`,
`(6,9,0)` and `(1,8,9)`. -/
theorem C3_parse_defaults :
    (∀ s : List Char,
      (splitDot s).length ≤ 3 →
      (∀ seg ∈ splitDot s, (parseU32 seg).isSome) →
      ∃ v : Version, Version.fromStr s = some (.ok v) ∧
        parseU32 ((splitDot s).getD 0 []) = some v.major ∧
        (2 ≤ (splitDot s).length → parseU32 ((splitDot s).getD 1 []) = some v.minor) ∧
        ((splitDot s).length < 2 → v.minor = 0) ∧
        (3 ≤ (splitDot s).length → parseU32 ((splitDot s).getD 2 []) = some v.patch) ∧
        ((splitDot s).length < 3 → v.patch = 0)) ∧
    Version.fromStr (("10").toList) = some (.ok (Version.new 10 0 0)) ∧
    Version.fromStr (("6.9").toList) = some (.ok (Version.new 6 9 0)) ∧
    Version.fromStr (("1.8.9").toList) = some (.ok (Version.new 1 8 9)) := by
  refine ⟨?_, by decide, by decide, by decide⟩
  intro s hlen hall
  obtain ⟨ns, h1, h2, h3⟩ := parseParts_ok hall
  have hpos : 0 < (splitDot s).length :=
    List.length_pos.mpr (splitDot_ne_nil s)
  rcases ns with _ | ⟨a, _ | ⟨b, _ | ⟨c, _ | ⟨d, tl⟩⟩⟩⟩
  · have h0 : (splitDot s).length = 0 := by simpa using h2.symm
    omega
  · have hl1 : (splitDot s).length = 1 := by simpa using h2.symm
    refine ⟨⟨a, 0, 0⟩, ?_, ?_, ?_, ?_, ?_, ?_⟩
    · simp [Version.fromStr, h1]
    · simpa using h3 0 hpos
    · intro hge
      exact absurd hge (by omega)
    · intro _
      rfl
    · intro hge
      exact absurd hge (by omega)
    · intro _
      rfl
  · have hl2 : (splitDot s).length = 2 := by simpa using h2.symm
    refine ⟨⟨a, b, 0⟩, ?_, ?_, ?_, ?_, ?_, ?_⟩
    · simp [Version.fromStr, h1]
    · simpa using h3 0 hpos
    · intro _
      simpa using h3 1 (by omega)
    · intro hlt
      exact absurd hlt (by omega)
    · intro hge
      exact absurd hge (by omega)
    · intro _
      rfl
  · have hl3 : (splitDot s).length = 3 := by simpa using h2.symm
    refine ⟨⟨a, b, c⟩, ?_, ?_, ?_, ?_, ?_, ?_⟩
    · simp [Version.fromStr, h1]
    · simpa using h3 0 hpos
    · intro _
      simpa using h3 1 (by omega)
    · intro hlt
      exact absurd hlt (by omega)
    · intro _
      simpa using h3 2 (by omega)
    · intro hlt
      exact absurd hlt (by omega)
  · have hl4 : (splitDot s).length = tl.length + 4 := by simpa using h2.symm
    omega

/-- Witness for C3: the general component applied to the concrete input
`"6.9"`. -/
theorem C3_witness :
    ∃ v : Version, Version.fromStr (("6.9").toList) = some (.ok v) ∧
      parseU32 ((splitDot (("6.9").toList)).getD 0 []) = some v.major ∧
      (2 ≤ (splitDot (("6.9").toList)).length →
        parseU32 ((splitDot (("6.9").toList)).getD 1 []) = some v.minor) ∧
      ((splitDot (("6.9").toList)).length < 2 → v.minor = 0) ∧
      (3 ≤ (splitDot (("6.9").toList)).length →
        parseU32 ((splitDot (("6.9").toList)).getD 2 []) = some v.patch) ∧
      ((splitDot (("6.9").toList)).length < 3 → v.patch = 0) :=
  C3_parse_defaults.1 (("6.9").toList) (by decide) (by decide)

/-- Claim C4: `Version::from` fails exactly on invalid inputs, with the
error the spec names: the first dot-separated segment not parsing as a
`u32` yields `InvalidSegment` carrying that segment's text (in
particular the empty input yields `InvalidSegment("")`); when all
segments parse but there are more than three of them, the result is
`TooManyParts`; inputs triggering neither condition succeed. -/
theorem C4_parse_errors :
    (∀ s : List Char,
      ((∃ seg ∈ splitDot s, parseU32 seg = none) →
        ∃ i, i < (splitDot s).length ∧
          parseU32 ((splitDot s).getD i []) = none ∧
          (∀ j, j < i → (parseU32 ((splitDot s).getD j [])).isSome) ∧
          Version.fromStr s = some (.error (.invalidSegment ((splitDot s).getD i [])))) ∧
      ((∀ seg ∈ splitDot s, (parseU32 seg).isSome) → 3 < (splitDot s).length →
        Version.fromStr s = some (.error .tooManyParts)) ∧
      ((∀ seg ∈ splitDot s, (parseU32 seg).isSome) → (splitDot s).length ≤ 3 →
        ∃ v, Version.fromStr s = some (.ok v))) ∧
    Version.fromStr (("").toList) = some (.error (.invalidSegment (("").toList))) := by
  refine ⟨?_, by decide⟩
  intro s
  refine ⟨?_, ?_, ?_⟩
  · intro hbad
    obtain ⟨i, h1, h2, h3, h4⟩ := parseParts_err hbad
    exact ⟨i, h1, h2, h3, by simp [Version.fromStr, h4]⟩
  · intro hall hgt
    obtain ⟨ns, h1, h2, _⟩ := parseParts_ok hall
    simp only [Version.fromStr, h1]
    rw [if_pos (by omega)]
  · intro hall hle
    obtain ⟨ns, h1, h2, _⟩ := parseParts_ok hall
    have hpos : 0 < (splitDot s).length :=
      List.length_pos.mpr (splitDot_ne_nil s)
    rcases ns with _ | ⟨a, rest⟩
    · have h0 : (splitDot s).length = 0 := by simpa using h2.symm
      omega
    · refine ⟨⟨a, rest.getD 0 0, rest.getD 1 0⟩, ?_⟩
      simp only [Version.fromStr, h1]
      rw [if_neg (by omega)]

/-- Witness for C4: the too-many-parts component applied to the concrete
input `"1.2.3.4"`. -/
theorem C4_witness :
    Version.fromStr (("1.2.3.4").toList) = some (.error .tooManyParts) :=
  (C4_parse_errors.1 (("1.2.3.4").toList)).2.1 (by decide) (by decide)

theorem parseU32_neg (s : List Char) : parseU32 ('-' :: s) = none := by
  simp [parseU32, parseU32Digits, digitVal]

/-- Claim C8 (amended): a dot-separated segment beginning with `'-'`
never parses (the unsigned parser does not consume a minus sign, which
then fails as an invalid digit), so any input containing such a segment
fails with `InvalidSegment` carrying its first non-parsing segment.  A
leading `'+'`, however, *is* consumed by `u32::from_str`: prefixing a
single `'+'` to a parsing digit string parses to the same value, and in
particular `parse("+1.2.3")` succeeds as `(1, 2, 3)` — the claim's
chosen example fails to fail. -/
theorem C8_sign_handling :
    (∀ s : List Char, parseU32 ('-' :: s) = none) ∧
    (∀ s seg : List Char, seg ∈ splitDot s → (∃ r, seg = '-' :: r) →
      ∃ t, t ∈ splitDot s ∧ parseU32 t = none ∧
        Version.fromStr s = some (.error (.invalidSegment t))) ∧
    (∀ (ds : List Char) (n : Nat), parseU32 ds = some n → ds.headD ' ' ≠ '+' →
      parseU32 ('+' :: ds) = some n) := by
  refine ⟨parseU32_neg, ?_, ?_⟩
  · intro s seg hmem hminus
    have hbad : ∃ p ∈ splitDot s, parseU32 p = none := by
      refine ⟨seg, hmem, ?_⟩
      obtain ⟨r, rfl⟩ := hminus
      exact parseU32_neg r
    obtain ⟨i, h1, h2, h3, h4⟩ := parseParts_err hbad
    refine ⟨(splitDot s).getD i [], ?_, h2, by simp [Version.fromStr, h4]⟩
    rw [List.getD_eq_getElem _ _ h1]
    exact List.getElem_mem h1
  · intro ds n h hne
    rcases ds with _ | ⟨c, cs⟩
    · simp [parseU32] at h
    · have hc : ¬ c = '+' := by simpa using hne
      simp only [parseU32, if_neg hc] at h
      simp [parseU32, h]

/-- Counterexample for C8 as stated: the claim's own example input
`"+1.2.3"` — whose first segment begins with a `'+'` sign — does not
fail; `u32::from_str` accepts an optional leading `'+'`, so the parse
succeeds as `(1, 2, 3)`. -/
theorem C8_counterexample :
    Version.fromStr (("+1.2.3").toList) = some (.ok (Version.new 1 2 3)) := by
  decide

/-- Witness for C8: the minus-segment component applied to the concrete
input `"5.-1"` (second segment `"-1"`), and the plus component applied to
`"12"`. -/
theorem C8_witness :
    (∃ t, t ∈ splitDot (("5.-1").toList) ∧ parseU32 t = none ∧
      Version.fromStr (("5.-1").toList) = some (.error (.invalidSegment t))) ∧
    parseU32 ('+' :: ("12").toList) = some 12 :=
  ⟨C8_sign_handling.2.1 (("5.-1").toList) (("-1").toList) (by decide)
      ⟨("1").toList, by decide⟩,
   C8_sign_handling.2.2 (("12").toList) 12 (by decide) (by decide)⟩

theorem libCollect_ok {l : List (List Char)} (h : ∀ p ∈ l, (parseU32 p).isSome) :
    ∃ ns, libCollect l = .ok ns ∧ ns.length = l.length ∧
      ∀ i, i < l.length → parseU32 (l.getD i []) = some (ns.getD i 0) := by
  induction l with
  | nil => exact ⟨[], rfl, rfl, by simp⟩
  | cons p ps ih =>
    have hp := h p (List.mem_cons_self p ps)
    rcases hn : parseU32 p with _ | n
    · rw [hn] at hp
      simp at hp
    · obtain ⟨ns, h1, h2, h3⟩ := ih (fun q hq => h q (List.mem_cons_of_mem _ hq))
      refine ⟨n :: ns, ?_, by simp [h2], ?_⟩
      · simp [libCollect, hn, h1]
      · intro i hi
        cases i with
        | zero => simpa using hn
        | succ j => simpa using h3 j (by simpa using hi)

/-- Claim C10: the earlier-revision parser `SemVer::from` in `src/lib.rs`
examines at most the first three dot-separated segments (`.take(3)`): for
every input whose first three segments each parse as a `u32` it succeeds
with those three values, regardless of how many further segments follow
and of their content; in particular both `"1.5.7.9"` and
`"1.5.7.garbage"` succeed as `(1, 5, 7)`. -/
theorem C10_lib_truncates :
    (∀ s : List Char, 3 ≤ (splitDot s).length →
      (∀ seg ∈ (splitDot s).take 3, (parseU32 seg).isSome) →
      ∃ v : LibSemVer, LibSemVer.fromStr s = .ok v ∧
        parseU32 (((splitDot s).take 3).getD 0 []) = some v.major ∧
        parseU32 (((splitDot s).take 3).getD 1 []) = some v.minor ∧
        parseU32 (((splitDot s).take 3).getD 2 []) = some v.patch) ∧
    LibSemVer.fromStr (("1.5.7.9").toList) = .ok (LibSemVer.mk 1 5 7) ∧
    LibSemVer.fromStr (("1.5.7.garbage").toList) = .ok (LibSemVer.mk 1 5 7) := by
  refine ⟨?_, by decide, by decide⟩
  intro s hlen hall
  obtain ⟨ns, h1, h2, h3⟩ := libCollect_ok hall
  have hl3 : ((splitDot s).take 3).length = 3 := by
    simp [List.length_take]
    omega
  rw [hl3] at h2 h3
  rcases ns with _ | ⟨a, _ | ⟨b, _ | ⟨c, _ | ⟨d, tl⟩⟩⟩⟩ <;> simp at h2
  refine ⟨⟨a, b, c⟩, ?_, ?_, ?_, ?_⟩
  · simp [LibSemVer.fromStr, h1]
  · simpa using h3 0 (by omega)
  · simpa using h3 1 (by omega)
  · simpa using h3 2 (by omega)

/-- Witness for C10: the general component applied to the concrete input
`"2.3.4.5"`. -/
theorem C10_witness :
    ∃ v : LibSemVer, LibSemVer.fromStr (("2.3.4.5").toList) = .ok v ∧
      parseU32 (((splitDot (("2.3.4.5").toList)).take 3).getD 0 []) = some v.major ∧
      parseU32 (((splitDot (("2.3.4.5").toList)).take 3).getD 1 []) = some v.minor ∧
      parseU32 (((splitDot (("2.3.4.5").toList)).take 3).getD 2 []) = some v.patch :=
  C10_lib_truncates.1 (("2.3.4.5").toList) (by decide) (by decide)

/-! ### Properties of the pattern evaluator -/

theorem findNumeric_none_iff (p : List Char) :
    findNumeric p = none ↔ ∀ c ∈ p, rustIsNumeric c = false := by
  induction p with
  | nil => simp [findNumeric]
  | cons c cs ih =>
    rcases h : rustIsNumeric c
    · simp [findNumeric, h, ih]
    · simp [findNumeric, h]

theorem findNumeric_of_min {p : List Char} {i : Nat} (h1 : i < p.length)
    (h2 : rustIsNumeric (p.getD i ' ') = true)
    (h3 : ∀ j, j < i → rustIsNumeric (p.getD j ' ') = false) :
    findNumeric p = some i := by
  induction p generalizing i with
  | nil => simp at h1
  | cons c cs ih =>
    cases i with
    | zero =>
      simp only [List.getD_cons_zero] at h2
      simp [findNumeric, h2]
    | succ i' =>
      have hc : rustIsNumeric c = false := by simpa using h3 0 (Nat.succ_pos i')
      have hrec : findNumeric cs = some i' := by
        refine ih (by simpa using h1) (by simpa using h2) ?_
        intro j hj
        simpa using h3 (j + 1) (by omega)
      simp [findNumeric, hc, hrec]

/-- Claim C2 (amended): `check` locates the first character of the pattern
that is *numeric* in the sense of Rust's `char::is_numeric` (Unicode
categories Nd, Nl, No) — not merely the first ASCII decimal digit, which
is how the claim reads; on ASCII patterns the two coincide.  If no
numeric character exists anywhere, it fails with `NoVersionFound`; the
prefix before the first numeric character is the operator token and the
remainder is parsed as a version with any parse error propagated; the
seven tokens yield the corresponding comparison or predicate, matched by
exact string equality of the entire token (so `">"` never shadows
`">="`), and every other token, including the empty one, fails with
`UnknownOperator(token)`. -/
theorem C2_check_dispatch :
    ∀ (v : Version) (p : List Char),
      ((∀ c ∈ p, rustIsNumeric c = false) →
        Version.check v p = some (.error .noVersionFound)) ∧
      (∀ i, i < p.length → rustIsNumeric (p.getD i ' ') = true →
        (∀ j, j < i → rustIsNumeric (p.getD j ' ') = false) →
        (∀ e, Version.fromStr (p.drop i) = some (.error e) →
          Version.check v p = some (.error (.parseFailed e))) ∧
        (∀ w, Version.fromStr (p.drop i) = some (.ok w) →
          Version.check v p =
            (if p.take i = ("=").toList then some (.ok (Version.eqb v w))
             else if p.take i = ("<").toList then some (.ok (Version.ltb v w))
             else if p.take i = (">").toList then some (.ok (Version.gtb v w))
             else if p.take i = ("<=").toList then some (.ok (Version.leb v w))
             else if p.take i = (">=").toList then some (.ok (Version.geb v w))
             else if p.take i = ("^").toList then
               (Version.is_compatible v w).map Except.ok
             else if p.take i = ("~").toList then
               (Version.is_featureless v w).map Except.ok
             else some (.error (.unknownOperator (p.take i)))))) := by
  intro v p
  constructor
  · intro hall
    simp [Version.check, (findNumeric_none_iff p).mpr hall]
  · intro i h1 h2 h3
    have hf : findNumeric p = some i := findNumeric_of_min h1 h2 h3
    constructor
    · intro e he
      simp [Version.check, hf, he]
    · intro w hw
      simp only [Version.check, hf, hw]

/-- Counterexample for C2 as stated: the pattern `"=²"` contains no ASCII
decimal digit anywhere, so the claim requires `check` to fail with
`NoVersionFound`; but `'²'` (U+00B2, superscript two) satisfies
`char::is_numeric`, so the code splits at it, takes `"="` as operator,
and fails instead with the propagated parse error for the segment
`"²"`. -/
theorem C2_counterexample :
    noAsciiDigit (("=²").toList) = true ∧
    Version.check (Version.new 1 0 0) (("=²").toList)
      = some (.error (.parseFailed (.invalidSegment (("²").toList)))) :=
  ⟨by decide, by decide⟩

/-- Witness for C2: the dispatch component applied to the pattern
`"<=1.2.0"`, whose first numeric character sits at index 2. -/
theorem C2_witness :
    Version.check (Version.new 1 0 0) (("<=1.2.0").toList)
      = some (.ok (Version.leb (Version.new 1 0 0) (Version.new 1 2 0))) :=
  (((C2_check_dispatch (Version.new 1 0 0) (("<=1.2.0").toList)).2 2 (by decide)
      (by decide) (by decide)).2 (Version.new 1 2 0) (by decide)).trans (by decide)

/-! ### Round-trip through the canonical rendering -/

theorem decDigitsFuel_congr :
    ∀ f g n : Nat, n ≤ f → n ≤ g → decDigitsFuel f n = decDigitsFuel g n := by
  intro f
  induction f with
  | zero =>
    intro g n hf hg
    have hn : n = 0 := by omega
    subst hn
    cases g <;> simp [decDigitsFuel]
  | succ f' ih =>
    intro g n hf hg
    cases g with
    | zero =>
      have hn : n = 0 := by omega
      subst hn
      simp [decDigitsFuel]
    | succ g' =>
      simp only [decDigitsFuel]
      by_cases h : n < 10
      · simp [h]
      · rw [if_neg h, if_neg h]
        have hdiv : n / 10 < n := Nat.div_lt_self (by omega) (by omega)
        rw [ih g' (n / 10) (by omega) (by omega)]

theorem decDigits_eq (n : Nat) :
    decDigits n =
      if n < 10 then [Nat.digitChar n]
      else decDigits (n / 10) ++ [Nat.digitChar (n % 10)] := by
  by_cases h : n < 10
  · rw [if_pos h]
    unfold decDigits
    cases n with
    | zero => simp [decDigitsFuel]
    | succ k => simp [decDigitsFuel, h]
  · rw [if_neg h]
    unfold decDigits
    cases n with
    | zero => omega
    | succ k =>
      simp only [decDigitsFuel, if_neg h]
      have hdiv : (k + 1) / 10 < k + 1 := Nat.div_lt_self (by omega) (by omega)
      rw [decDigitsFuel_congr k ((k + 1) / 10) ((k + 1) / 10) (by omega) (by omega)]

theorem digitChar_bounds {d : Nat} (h : d < 10) :
    '0' ≤ Nat.digitChar d ∧ Nat.digitChar d ≤ '9' := by
  interval_cases d <;> exact ⟨by decide, by decide⟩

theorem digitVal_digitChar {d : Nat} (h : d < 10) :
    digitVal (Nat.digitChar d) = some d := by
  interval_cases d <;> decide

theorem decDigits_ne_nil (n : Nat) : decDigits n ≠ [] := by
  rw [decDigits_eq]
  split_ifs <;> simp

theorem decDigits_digits (n : Nat) : ∀ c ∈ decDigits n, '0' ≤ c ∧ c ≤ '9' := by
  induction n using Nat.strong_induction_on with
  | _ n ih =>
    rw [decDigits_eq]
    split_ifs with h
    · intro c hc
      rw [List.mem_singleton] at hc
      subst hc
      exact digitChar_bounds h
    · intro c hc
      rcases List.mem_append.mp hc with hmem | hmem
      · exact ih (n / 10) (Nat.div_lt_self (by omega) (by omega)) c hmem
      · rw [List.mem_singleton] at hmem
        subst hmem
        exact digitChar_bounds (Nat.mod_lt n (by omega))

theorem parseU32Digits_append (xs ys : List Char) (acc : Nat) :
    parseU32Digits (xs ++ ys) acc =
      match parseU32Digits xs acc with
      | none => none
      | some a => parseU32Digits ys a := by
  induction xs generalizing acc with
  | nil => simp [parseU32Digits]
  | cons c cs ih =>
    rcases hd : digitVal c with _ | d
    · simp [parseU32Digits, hd]
    · by_cases hb : acc * 10 + d ≤ 4294967295
      · simp only [List.cons_append, parseU32Digits, hd, if_pos hb]
        exact ih _
      · simp [parseU32Digits, hd, if_neg hb]

theorem parseU32Digits_decDigits :
    ∀ n acc : Nat, acc * 10 ^ (decDigits n).length + n ≤ 4294967295 →
      parseU32Digits (decDigits n) acc =
        some (acc * 10 ^ (decDigits n).length + n) := by
  intro n
  induction n using Nat.strong_induction_on with
  | _ n ih =>
    intro acc hbound
    by_cases h : n < 10
    · have hlen : (decDigits n).length = 1 := by
        rw [decDigits_eq, if_pos h]
        rfl
      rw [hlen, pow_one] at hbound ⊢
      rw [decDigits_eq, if_pos h]
      simp only [parseU32Digits, digitVal_digitChar h]
      rw [if_pos hbound]
    · have hdiv : n / 10 < n := Nat.div_lt_self (by omega) (by omega)
      have hmod : n % 10 < 10 := Nat.mod_lt n (by omega)
      have hdm : 10 * (n / 10) + n % 10 = n := Nat.div_add_mod n 10
      have hlen : (decDigits n).length = (decDigits (n / 10)).length + 1 := by
        rw [decDigits_eq, if_neg h]
        simp
      have hval :
          (acc * 10 ^ (decDigits (n / 10)).length + n / 10) * 10 + n % 10 =
            acc * 10 ^ ((decDigits (n / 10)).length + 1) + n := by
        rw [pow_succ]
        have halg :
            (acc * 10 ^ (decDigits (n / 10)).length + n / 10) * 10 + n % 10 =
              acc * (10 ^ (decDigits (n / 10)).length * 10) +
                (10 * (n / 10) + n % 10) := by
          ring
        rw [halg, hdm]
      rw [hlen] at hbound ⊢
      have hb' : acc * 10 ^ (decDigits (n / 10)).length + n / 10 ≤ 4294967295 := by
        rw [← hval] at hbound
        omega
      rw [decDigits_eq, if_neg h, parseU32Digits_append, ih (n / 10) hdiv acc hb']
      simp only [parseU32Digits, digitVal_digitChar hmod]
      rw [hval, if_pos hbound]

theorem parseU32_decDigits {n : Nat} (h : n ≤ 4294967295) :
    parseU32 (decDigits n) = some n := by
  have hd := decDigits_digits n
  rcases hne : decDigits n with _ | ⟨c, cs⟩
  · exact absurd hne (decDigits_ne_nil n)
  · have hc : ¬ c = '+' := by
      have hcd := hd c (by rw [hne]; exact List.mem_cons_self c cs)
      intro hceq
      rw [hceq] at hcd
      exact absurd hcd.1 (by decide)
    have hmain := parseU32Digits_decDigits n 0 (by simpa using h)
    rw [hne] at hmain
    simp [parseU32, hc, hmain]

theorem splitDot_no_dot {s : List Char} (h : '.' ∉ s) : splitDot s = [s] := by
  induction s with
  | nil => rfl
  | cons c cs ih =>
    have h1 : ¬('.' = c) ∧ '.' ∉ cs := by simpa using h
    have hc : ¬(c = '.') := fun hcc => h1.1 hcc.symm
    simp only [splitDot, if_neg hc]
    rw [ih h1.2]

theorem splitDot_append {a rest : List Char} (h : '.' ∉ a) :
    splitDot (a ++ '.' :: rest) = a :: splitDot rest := by
  induction a with
  | nil => simp [splitDot]
  | cons c cs ih =>
    have h1 : ¬('.' = c) ∧ '.' ∉ cs := by simpa using h
    have hc : ¬(c = '.') := fun hcc => h1.1 hcc.symm
    show splitDot (c :: (cs ++ '.' :: rest)) = (c :: cs) :: splitDot rest
    simp only [splitDot, if_neg hc]
    rw [ih h1.2]

theorem dot_not_mem_decDigits (n : Nat) : '.' ∉ decDigits n := by
  intro hmem
  exact absurd (decDigits_digits n '.' hmem).1 (by decide)

/-- Claim C9: round-trip — for all `u32` values `M`, `m`, `p`, parsing
the canonical rendering `"M.m.p"` (decimal digit strings joined with
`'.'`) succeeds and yields exactly `Version::new(M, m, p)`. -/
theorem C9_roundtrip :
    ∀ M m p : Nat, M ≤ 4294967295 → m ≤ 4294967295 → p ≤ 4294967295 →
      Version.fromStr (formatVersion M m p) = some (.ok (Version.new M m p)) := by
  intro M m p hM hm hp
  have hsplit : splitDot (formatVersion M m p) = [decDigits M, decDigits m, decDigits p] := by
    unfold formatVersion
    rw [splitDot_append (dot_not_mem_decDigits M),
        splitDot_append (dot_not_mem_decDigits m),
        splitDot_no_dot (dot_not_mem_decDigits p)]
  have hparts : parseParts [decDigits M, decDigits m, decDigits p] = .ok [M, m, p] := by
    simp [parseParts, parseU32_decDigits hM, parseU32_decDigits hm, parseU32_decDigits hp]
  simp [Version.fromStr, hsplit, hparts, Version.new]

/-- Witness for C9: the round-trip at the concrete triple
`(4294967295, 0, 308)`. -/
theorem C9_witness :
    Version.fromStr (formatVersion 4294967295 0 308)
      = some (.ok (Version.new 4294967295 0 308)) :=
  C9_roundtrip 4294967295 0 308 (by decide) (by decide) (by decide)
